import Mathlib

/-!
# stellae-flow: verification of the graph-extraction / layout / composition pipeline

Shallow embedding of the plugin's core (src/code.ts, src/ui.ts, src/types.ts):

* prototype-connection extraction (`scanPrototypeConnections`),
* flow-color assignment (`assignFlowColors`),
* tier gating of the scan handler (`handleScan`),
* arrow geometry (`createArrow`, plus a JS-number model `createArrowJs`
  capturing NaN propagation),
* layout (`computeLayout`, with the positions of the external dagre library
  modelled from the specification).

JavaScript conventions used throughout the embedding:
* `Map` (insertion ordered) becomes a list with first-occurrence registration
  or in-place overwrite, as the source uses it;
* truthiness tests on possibly-absent record fields (`reaction.action`,
  `action.destinationId`, `reaction.trigger?.type`, `action.type`) become
  `Option`;
* `Math.round x` becomes `⌊x + 1/2⌋` (JS rounds halves toward +∞);
* finite number arithmetic is modelled exactly in `ℚ`.
-/

/-- A screen node of the extracted flow graph (src/types.ts `FlowNode`). -/
structure FlowNode where
  id : String
  name : String
  width : Int
  height : Int
deriving DecidableEq, Repr

/-- A transition edge of the extracted flow graph (src/types.ts `FlowEdge`). -/
structure FlowEdge where
  sourceId : String
  targetId : String
  trigger : String
  action : String
deriving DecidableEq, Repr

/-- The extraction result (src/types.ts `FlowGraph`). -/
structure FlowGraph where
  nodes : List FlowNode
  edges : List FlowEdge
  startingPointIds : List String
deriving DecidableEq, Repr

/-- A positioned node of the layout result (src/types.ts `LayoutNode`). -/
structure LayoutNode where
  id : String
  name : String
  x : Int
  y : Int
  width : Int
  height : Int
deriving DecidableEq, Repr

/-- A routed edge of the layout result (src/types.ts `LayoutEdge`). -/
structure LayoutEdge where
  sourceId : String
  targetId : String
  trigger : String
  action : String
  points : List (Int × Int)
deriving DecidableEq, Repr

/-- The layout result (src/types.ts `LayoutResult`). -/
structure LayoutResult where
  nodes : List LayoutNode
  edges : List LayoutEdge
deriving DecidableEq, Repr

/-- A tier configuration (src/types.ts `TierConfig`).  `maxScreens` is a JS
number that is `Infinity` for the pro tier; we model it as `Option ℕ`
with `none` standing for `Infinity`. -/
structure TierConfig where
  maxScreens : Option Nat
  flowHighlighting : Bool
  interactionLabels : Bool
  pdfExport : Bool
deriving DecidableEq, Repr

/-- src/types.ts `TIERS.free`. -/
def TIERS_free : TierConfig :=
  { maxScreens := some 10, flowHighlighting := false,
    interactionLabels := false, pdfExport := false }

/-- src/types.ts `TIERS.pro` (`maxScreens: Infinity`). -/
def TIERS_pro : TierConfig :=
  { maxScreens := none, flowHighlighting := true,
    interactionLabels := true, pdfExport := true }

/-- The `TIERS` record viewed as the lookup `TIERS[name]`, which is absent
for any name other than `free` and `pro`. -/
def TIERS : String → Option TierConfig := fun name =>
  if name = "free" then some TIERS_free
  else if name = "pro" then some TIERS_pro
  else none

/-- JS `Math.round`: round to nearest, halves toward +∞. -/
def jsRound (q : ℚ) : Int := ⌊q + 1/2⌋

/-! ## Graph extractor (src/code.ts `scanPrototypeConnections`) -/

/-- The data of a resolved top-level frame-like container, as read off by the
scanner after `findTopFrame` succeeds: its id, name and reported (float)
dimensions. -/
structure TopFrame where
  id : String
  name : String
  width : ℚ
  height : ℚ
deriving DecidableEq, Repr

/-- A reaction's `action` record, keeping the two fields the scanner reads.
`destinationId` is `some` exactly when `action.destinationId` is truthy, and
`actionType` models `action.type` (`none` when falsy, triggering the
`'NAVIGATE'` default). -/
structure ActionRec where
  destinationId : Option String
  actionType : Option String
deriving DecidableEq, Repr

/-- A prototype reaction.  `triggerType` models `reaction.trigger?.type`
(`none` when the trigger or its type is absent, triggering the `'ON_CLICK'`
default); `action` is `none` exactly when `reaction.action` is falsy. -/
structure Reaction where
  triggerType : Option String
  action : Option ActionRec
deriving DecidableEq, Repr

/-- A scene element: id, name, node type (e.g. `"FRAME"`), reported float
dimensions, its reaction list and its children.  The host's parent pointers
are implicit in the tree structure. -/
inductive Element where
  | mk (id name etype : String) (width height : ℚ)
       (reactions : List Reaction) (children : List Element)

/-- src/code.ts `findTopFrame`, applied to any node inside the subtree of the
top-level element `root`: the ancestor walk stops at `root` (the unique
ancestor whose parent is the page) and yields it when its type is `FRAME`,
`COMPONENT` or `COMPONENT_SET`, and `null` otherwise. -/
def topFrameOf (root : Element) : Option TopFrame :=
  match root with
  | .mk id name etype w h _ _ =>
    if etype = "FRAME" ∨ etype = "COMPONENT" ∨ etype = "COMPONENT_SET" then
      some { id := id, name := name, width := w, height := h }
    else none

/-- The `if (!nodeMap.has(id)) nodeMap.set(id, {...})` registration step of
the scanner: first occurrence wins, dimensions are `Math.round`ed. -/
def registerNode (nodes : List FlowNode) (f : TopFrame) : List FlowNode :=
  if nodes.any (fun n => n.id == f.id) then nodes
  else nodes ++ [{ id := f.id, name := f.name,
                   width := jsRound f.width, height := jsRound f.height }]

/-- The scanner state: the node map (insertion ordered) and the edge list. -/
abbrev ScanState := List FlowNode × List FlowEdge

/-- The body of the scanner's `for (const reaction of reactions)` loop.
`rd` models `figma.getNodeById` composed with `findTopFrame` on the
destination (`null` destination node gives `null` frame); `sf` is
`findTopFrame` of the reacting node. -/
def processReaction (rd : String → Option TopFrame) (sf : Option TopFrame)
    (st : ScanState) (r : Reaction) : ScanState :=
  match r.action with
  | none => st
  | some a =>
    match a.destinationId with
    | none => st
    | some destId =>
      match sf, rd destId with
      | some sfr, some dfr =>
        if sfr.id ≠ dfr.id then
          (registerNode (registerNode st.1 sfr) dfr,
           st.2 ++ [{ sourceId := sfr.id, targetId := dfr.id,
                      trigger := r.triggerType.getD "ON_CLICK",
                      action := a.actionType.getD "NAVIGATE" }])
        else st
      | _, _ => st

/-- src/code.ts `walkNode`, in worklist form: process the head element's
reactions, then its children, then the rest — the exact pre-order of the
recursive source.  `sf` is the (constant) top frame of the enclosing
top-level element. -/
def walkElems (rd : String → Option TopFrame) (sf : Option TopFrame) :
    List Element → ScanState → ScanState
  | [], st => st
  | .mk _ _ _ _ _ rs cs :: rest, st =>
      walkElems rd sf rest (walkElems rd sf cs (rs.foldl (processReaction rd sf) st))
termination_by l => sizeOf l
decreasing_by all_goals (simp <;> omega)

/-- src/code.ts `scanPrototypeConnections`.  `pageChildren` are the page's
top-level elements, `rd` resolves a destination id to its top frame, and
`flowStartingPoints` is the page's declared list of entry node ids (the empty
list models an absent `flowStartingPoints`). -/
def scanPrototypeConnections (pageChildren : List Element)
    (rd : String → Option TopFrame)
    (flowStartingPoints : List String) : FlowGraph :=
  let st := pageChildren.foldl
    (fun st root => walkElems rd (topFrameOf root) [root] st) ([], [])
  let nodes := st.1
  let edges := st.2
  let declared := flowStartingPoints.foldl
    (fun acc spId => if nodes.any (fun n => n.id == spId) then acc ++ [spId] else acc) []
  let startingPointIds :=
    if declared.length = 0 then
      let hasIncoming := edges.map (fun e => e.targetId)
      nodes.foldl (fun acc n => if hasIncoming.contains n.id then acc else acc ++ [n.id]) []
    else declared
  { nodes := nodes, edges := edges, startingPointIds := startingPointIds }

/-! ## Flow color assignment (src/code.ts `assignFlowColors`) -/

/-- An RGB color with channels in `[0,1]`, modelled exactly in `ℚ`. -/
structure RGB where
  r : ℚ
  g : ℚ
  b : ℚ
deriving DecidableEq, Repr

/-- src/code.ts `FLOW_COLORS`: the fixed 5-color palette (decimal channel
values written as exact fractions). -/
def FLOW_COLORS : List RGB :=
  [ { r := 18/100, g := 80/100, b := 44/100 },
    { r := 91/100, g := 30/100, b := 24/100 },
    { r := 20/100, g := 60/100, b := 86/100 },
    { r := 95/100, g := 61/100, b := 7/100 },
    { r := 56/100, g := 27/100, b := 68/100 } ]

/-- JS `Set` deduplication (`[...new Set(l)]`), keeping the first occurrence of
each element in insertion order. -/
def setDedup (l : List String) : List String :=
  l.foldl (fun acc s => if acc.contains s then acc else acc ++ [s]) []

/-- JS `Map.set` on a map represented as an insertion-ordered association
list: an existing key is overwritten in place, a new key is appended. -/
def jsMapSet (m : List (String × RGB)) (k : String) (v : RGB) :
    List (String × RGB) :=
  if m.any (fun p => p.1 == k) then
    m.map (fun p => if p.1 == k then (k, v) else p)
  else m ++ [(k, v)]

/-- JS `Map.get` on the association-list representation. -/
def jsMapGet (m : List (String × RGB)) (k : String) : Option RGB :=
  (m.find? (fun p => p.1 == k)).map (fun p => p.2)

/-- The `` `${edge.sourceId}-${edge.targetId}` `` key under which
`assignFlowColors` stores an edge's color. -/
def edgeColorKey (e : LayoutEdge) : String :=
  e.sourceId ++ "-" ++ e.targetId

/-- src/code.ts `assignFlowColors`: distinct source ids in first-appearance
order; each edge's color is the palette entry at the index of its source,
modulo the palette length, stored under the edge's concatenated key. -/
def assignFlowColors (layout : LayoutResult) : List (String × RGB) :=
  let sourceNodes := setDedup (layout.edges.map (fun e => e.sourceId))
  layout.edges.foldl
    (fun m e =>
      jsMapSet m (edgeColorKey e)
        (FLOW_COLORS.getD (sourceNodes.indexOf e.sourceId % FLOW_COLORS.length)
          { r := 0, g := 0, b := 0 }))
    []

/-! ## Tier gating of the scan request (src/code.ts `figma.ui.onmessage`) -/

/-- The comparison `graph.nodes.length > currentTier.maxScreens`, where `maxScreens` may be
`Infinity` (`none`): every finite count is below `Infinity`. -/
def exceedsMaxScreens (count : Nat) : Option Nat → Bool
  | none => false
  | some m => decide (m < count)

/-- The string interpolation of `maxScreens` (`Infinity` prints as
`"Infinity"`). -/
def maxScreensString : Option Nat → String
  | none => "Infinity"
  | some m => toString m

/-- The outcome of the `'scan'` message branch: either an error message posted
to the UI (generation stops before any layout, thumbnailing or composition),
or the graph posted as accepted. -/
inductive ScanOutcome where
  | errorMsg (message : String)
  | accepted (graph : FlowGraph)
deriving DecidableEq, Repr

/-- The tier-limit error message built by the handler. -/
def tierLimitMessage (tier : TierConfig) (count : Nat) : String :=
  "Free tier supports up to " ++ maxScreensString tier.maxScreens ++
    " screens. Found " ++ toString count ++ ". Upgrade to Pro for unlimited."

/-- The `'scan'` branch of src/code.ts `figma.ui.onmessage`, applied to the
graph returned by `scanPrototypeConnections` and the active tier: empty graphs
and graphs over the tier's screen limit are rejected with an error message,
anything else is accepted. -/
def handleScan (graph : FlowGraph) (tier : TierConfig) : ScanOutcome :=
  if graph.nodes.length = 0 then
    .errorMsg "No prototype connections found on this page. Add some prototype links between frames first."
  else if exceedsMaxScreens graph.nodes.length tier.maxScreens then
    .errorMsg (tierLimitMessage tier graph.nodes.length)
  else .accepted graph

/-- Whether `needle` occurs as a contiguous substring of `hay`. -/
def strContains (hay needle : String) : Prop :=
  ∃ a b, hay = a ++ needle ++ b

/-! ## Arrow geometry (src/code.ts `createArrow`)

The arithmetic of `createArrow` is modelled exactly over `ℚ`, with the host's
`Math.sqrt` abstracted as a function parameter `sqrtFn` (the geometry facts we
prove hold for every choice of `sqrtFn`). -/

/-- The four absolute points computed by `createArrow` before re-basing:
shortened shaft start, shortened shaft end, and the two arrowhead points. -/
def arrowPoints (sqrtFn : ℚ → ℚ) (x1 y1 x2 y2 : ℚ) :
    (ℚ × ℚ) × (ℚ × ℚ) × (ℚ × ℚ) × (ℚ × ℚ) :=
  let gap : ℚ := 8
  let arrowSize : ℚ := 10
  let dx := x2 - x1
  let dy := y2 - y1
  let len := sqrtFn (dx * dx + dy * dy)
  let ux := dx / len
  let uy := dy / len
  let sx := x1 + ux * gap
  let sy := y1 + uy * gap
  let ex := x2 - ux * gap
  let ey := y2 - uy * gap
  let ax1 := ex - ux * arrowSize - uy * arrowSize * 0.5
  let ay1 := ey - uy * arrowSize + ux * arrowSize * 0.5
  let ax2 := ex - ux * arrowSize + uy * arrowSize * 0.5
  let ay2 := ey - uy * arrowSize - ux * arrowSize * 0.5
  ((sx, sy), (ex, ey), (ax1, ay1), (ax2, ay2))

/-- The vector element produced by `createArrow`: its position `(x, y)` and
the eight relative coordinates that make up its two SVG path strings
(`M rsx rsy L rex rey` and `M rex rey L rax1 ray1 M rex rey L rax2 ray2`),
plus its stroke color. -/
structure Arrow where
  x : ℚ
  y : ℚ
  rsx : ℚ
  rsy : ℚ
  rex : ℚ
  rey : ℚ
  rax1 : ℚ
  ray1 : ℚ
  rax2 : ℚ
  ray2 : ℚ
  stroke : RGB
deriving DecidableEq, Repr

/-- src/code.ts `createArrow` over exact rationals: compute the four points,
take the componentwise minimum as the element origin (`Math.min(...allX)`,
`Math.min(...allY)`), and express the path relative to it. -/
def createArrow (sqrtFn : ℚ → ℚ) (x1 y1 x2 y2 : ℚ) (color : RGB) : Arrow :=
  let p := arrowPoints sqrtFn x1 y1 x2 y2
  let sx := p.1.1;   let sy := p.1.2
  let ex := p.2.1.1; let ey := p.2.1.2
  let ax1 := p.2.2.1.1; let ay1 := p.2.2.1.2
  let ax2 := p.2.2.2.1; let ay2 := p.2.2.2.2
  let originX := min (min (min sx ex) ax1) ax2
  let originY := min (min (min sy ey) ay1) ay2
  { x := originX, y := originY,
    rsx := sx - originX, rsy := sy - originY,
    rex := ex - originX, rey := ey - originY,
    rax1 := ax1 - originX, ray1 := ay1 - originY,
    rax2 := ax2 - originX, ray2 := ay2 - originY,
    stroke := color }

/-- Four-way minimum, as `Math.min(a, b, c, d)` folds pairwise. -/
def minOf4 (a b c d : ℚ) : ℚ := min (min (min a b) c) d

/-! ## JS number semantics for the arrow (NaN propagation)

`createArrow` in the source runs on IEEE doubles.  To examine its degenerate
case honestly we re-embed it over a JS-number model that keeps `NaN` and the
two infinities explicit.  Finite arithmetic is modelled exactly (no rounding);
`Math.sqrt` is modelled by `Rat.sqrt`, which agrees with the JS value exactly
on perfect squares — the only points at which this development evaluates it. -/

inductive JsNum where
  | nan : JsNum
  | inf (positive : Bool) : JsNum
  | num (q : ℚ) : JsNum
deriving DecidableEq, Repr

/-- JS negation. -/
def jsNeg : JsNum → JsNum
  | .nan => .nan
  | .inf s => .inf (!s)
  | .num a => .num (-a)

/-- JS addition. -/
def jsAdd : JsNum → JsNum → JsNum
  | .nan, _ => .nan
  | _, .nan => .nan
  | .inf s, .inf t => if s = t then .inf s else .nan
  | .inf s, .num _ => .inf s
  | .num _, .inf t => .inf t
  | .num a, .num b => .num (a + b)

/-- JS subtraction. -/
def jsSub (x y : JsNum) : JsNum := jsAdd x (jsNeg y)

/-- JS multiplication (signed zeros are not modelled; `±∞ * 0 = NaN`). -/
def jsMul : JsNum → JsNum → JsNum
  | .nan, _ => .nan
  | _, .nan => .nan
  | .inf s, .inf t => .inf (s = t)
  | .inf s, .num b => if b = 0 then .nan else .inf (s = decide (0 < b))
  | .num a, .inf t => if a = 0 then .nan else .inf (t = decide (0 < a))
  | .num a, .num b => .num (a * b)

/-- JS division (signed zeros are not modelled; `0 / 0 = NaN`,
`a / 0 = ±∞` for `a ≠ 0`). -/
def jsDiv : JsNum → JsNum → JsNum
  | .nan, _ => .nan
  | _, .nan => .nan
  | .inf _, .inf _ => .nan
  | .inf s, .num b => if b = 0 then .inf s else .inf (s = decide (0 ≤ b))
  | .num _, .inf _ => .num 0
  | .num a, .num b =>
      if b = 0 then (if a = 0 then .nan else .inf (decide (0 < a)))
      else .num (a / b)

/-- JS `Math.sqrt` (exact on perfect squares via `Rat.sqrt`). -/
def jsSqrt : JsNum → JsNum
  | .nan => .nan
  | .inf s => if s then .inf true else .nan
  | .num a => if a < 0 then .nan else .num (Rat.sqrt a)

/-- Two-argument JS `Math.min`: any `NaN` argument makes the result `NaN`. -/
def jsMin : JsNum → JsNum → JsNum
  | .nan, _ => .nan
  | _, .nan => .nan
  | .inf false, _ => .inf false
  | _, .inf false => .inf false
  | .inf true, y => y
  | x, .inf true => x
  | .num a, .num b => .num (min a b)

/-- The arrow element over JS numbers: position and relative path
coordinates, exactly as `createArrow` computes them. -/
structure ArrowJs where
  x : JsNum
  y : JsNum
  rsx : JsNum
  rsy : JsNum
  rex : JsNum
  rey : JsNum
  rax1 : JsNum
  ray1 : JsNum
  rax2 : JsNum
  ray2 : JsNum
deriving DecidableEq, Repr

/-- The divisor `len = Math.sqrt(dx * dx + dy * dy)` of src/code.ts
`createArrow`, over JS numbers. -/
def arrowLenJs (x1 y1 x2 y2 : JsNum) : JsNum :=
  let dx := jsSub x2 x1
  let dy := jsSub y2 y1
  jsSqrt (jsAdd (jsMul dx dx) (jsMul dy dy))

/-- src/code.ts `createArrow` over JS numbers, line for line: there is no
special case anywhere — `ux = dx / len` and `uy = dy / len` are always
computed, and every later coordinate is derived from them. -/
def createArrowJs (x1 y1 x2 y2 : JsNum) : ArrowJs :=
  let gap : JsNum := .num 8
  let arrowSize : JsNum := .num 10
  let dx := jsSub x2 x1
  let dy := jsSub y2 y1
  let len := arrowLenJs x1 y1 x2 y2
  let ux := jsDiv dx len
  let uy := jsDiv dy len
  let sx := jsAdd x1 (jsMul ux gap)
  let sy := jsAdd y1 (jsMul uy gap)
  let ex := jsSub x2 (jsMul ux gap)
  let ey := jsSub y2 (jsMul uy gap)
  let half : JsNum := .num 0.5
  let ax1 := jsSub (jsSub ex (jsMul ux arrowSize)) (jsMul (jsMul uy arrowSize) half)
  let ay1 := jsAdd (jsSub ey (jsMul uy arrowSize)) (jsMul (jsMul ux arrowSize) half)
  let ax2 := jsAdd (jsSub ex (jsMul ux arrowSize)) (jsMul (jsMul uy arrowSize) half)
  let ay2 := jsSub (jsSub ey (jsMul uy arrowSize)) (jsMul (jsMul ux arrowSize) half)
  let originX := jsMin (jsMin (jsMin sx ex) ax1) ax2
  let originY := jsMin (jsMin (jsMin sy ey) ay1) ay2
  { x := originX, y := originY,
    rsx := jsSub sx originX, rsy := jsSub sy originY,
    rex := jsSub ex originX, rey := jsSub ey originY,
    rax1 := jsSub ax1 originX, ray1 := jsSub ay1 originY,
    rax2 := jsSub ax2 originX, ray2 := jsSub ay2 originY }

/-! ## Layout (src/ui.ts `computeLayout`)

`computeLayout` hands ranking, ordering and positioning to the bundled dagre
library, which is not part of this repository's sources.  Its node positions
are therefore modelled from the specification (§4.2); the surrounding
`computeLayout` code — fixed card size, centre-to-corner conversion,
`Math.round`, and the structure-preserving mapping over nodes and edges — is
embedded from src/ui.ts. -/

/-- One saturation step of forward reachability: add the targets of all edges
whose source is already in the set. -/
def reachStep (edges : List FlowEdge) (s : Finset String) : Finset String :=
  s ∪ ((edges.filter (fun e => decide (e.sourceId ∈ s))).map
        (fun e => e.targetId)).toFinset

/-- Iterate `reachStep` with fuel, stopping early at a fixpoint. -/
def reachIter (edges : List FlowEdge) : Nat → Finset String → Finset String
  | 0, s => s
  | n + 1, s =>
      let t := reachStep edges s
      if t = s then s else reachIter edges n t

/-- All ids reachable from `u` (including `u` itself) by following edges
forward.  The fuel `(#targets) + 1` always suffices to reach the fixpoint. -/
def reachSet (edges : List FlowEdge) (u : String) : Finset String :=
  reachIter edges ((edges.map (fun e => e.targetId)).toFinset.card + 1) {u}

/-- Whether `v` is reachable from `u` (in zero or more steps). -/
def reachableB (edges : List FlowEdge) (u v : String) : Bool :=
  decide (v ∈ reachSet edges u)

/-- Modelled from the spec: the rank dagre assigns a node.  §4.2 requires
ranks "consistent with a topological ordering along the chosen direction",
with back-edges (edges lying on a cycle) non-constraining.  We realise this
as the number of strict ancestors of `v` in the reachability preorder — a
deterministic rank function under which every non-back edge strictly
increases the rank. -/
def nodeRank (g : FlowGraph) (v : String) : Nat :=
  ((g.nodes.map (fun n => n.id)).toFinset.filter
    (fun u => reachableB g.edges u v = true ∧ reachableB g.edges v u = false)).card

/-- The two layout directions of src/ui.ts (`'LR' | 'TB'`). -/
inductive Dir where
  | LR : Dir
  | TB : Dir
deriving DecidableEq, Repr

/-- Modelled from the spec: the centre position dagre reports for a node
(§4.2: fixed card size 324×252, `nodesep` 80, `ranksep` 120, margins 20; the
primary axis is ordered by rank with fixed separation, the secondary axis
stacks nodes with fixed separation). -/
def dagreNodePos (g : FlowGraph) (dir : Dir) (v : String) : ℚ × ℚ :=
  let r : ℚ := nodeRank g v
  let i : ℚ := (g.nodes.map (fun n => n.id)).indexOf v
  match dir with
  | .LR => (20 + r * (324 + 120) + 324 / 2, 20 + i * (252 + 80) + 252 / 2)
  | .TB => (20 + i * (324 + 80) + 324 / 2, 20 + r * (252 + 120) + 252 / 2)

/-- Modelled from the spec: the polyline dagre reports for an edge (§4.2: a
routed polyline from the vicinity of the source to the vicinity of the
target). -/
def dagreEdgePoints (g : FlowGraph) (dir : Dir) (e : FlowEdge) : List (ℚ × ℚ) :=
  [dagreNodePos g dir e.sourceId, dagreNodePos g dir e.targetId]

/-- src/ui.ts `computeLayout`: fixed card size `CARD_W = 324`, `CARD_H = 252`;
every node keeps its id and name (in order) and gets the rounded top-left
corner of a fixed-size card centred on dagre's reported position; every edge
keeps its endpoints and metadata (in order) and gets dagre's route points,
rounded. -/
def computeLayout (graph : FlowGraph) (direction : Dir) : LayoutResult :=
  let nodes := graph.nodes.map (fun n =>
    { id := n.id, name := n.name,
      x := jsRound ((dagreNodePos graph direction n.id).1 - 324 / 2),
      y := jsRound ((dagreNodePos graph direction n.id).2 - 252 / 2),
      width := 324, height := 252 : LayoutNode })
  let edges := graph.edges.map (fun e =>
    { sourceId := e.sourceId, targetId := e.targetId,
      trigger := e.trigger, action := e.action,
      points := (dagreEdgePoints graph direction e).map
        (fun p => (jsRound p.1, jsRound p.2)) : LayoutEdge })
  { nodes := nodes, edges := edges }

/-- The `x` coordinate `computeLayout` assigns to the node with id `v`
(via the first layout node carrying that id). -/
def layoutXOf (g : FlowGraph) (dir : Dir) (v : String) : Option Int :=
  ((computeLayout g dir).nodes.find? (fun n => n.id == v)).map (fun n => n.x)

/-- The `y` coordinate `computeLayout` assigns to the node with id `v`. -/
def layoutYOf (g : FlowGraph) (dir : Dir) (v : String) : Option Int :=
  ((computeLayout g dir).nodes.find? (fun n => n.id == v)).map (fun n => n.y)

/-- Strict order on optional coordinates: both present and `<`. -/
def optLt : Option Int → Option Int → Prop
  | some a, some b => a < b
  | _, _ => False

/-! ## Concrete instances used to evaluate the embedding -/

/-- A page holding a single isolated frame with no interaction records. -/
def lonelyPage : List Element :=
  [Element.mk "frame1" "Lonely" "FRAME" 375 812 [] []]

/-- A reaction navigating to `destId` (explicit trigger and action types). -/
def navReaction (destId : String) : Reaction :=
  { triggerType := some "ON_CLICK",
    action := some { destinationId := some destId, actionType := some "NAVIGATE" } }

/-- A button-like child element with one navigation reaction. -/
def navButton (id destId : String) : Element :=
  Element.mk id "Button" "INSTANCE" 100 44 [navReaction destId] []

/-- A page with a frame of reported size `(375.5, 812.7)` linking to a second
frame. -/
def dimPage : List Element :=
  [ Element.mk "f1" "Home" "FRAME" 375.5 812.7 [] [navButton "b1" "f2"],
    Element.mk "f2" "Details" "FRAME" 375 812 [] [] ]

/-- Destination resolution for `dimPage`. -/
def dimRd : String → Option TopFrame := fun s =>
  if s = "f2" then some { id := "f2", name := "Details", width := 375, height := 812 }
  else none

/-- A page whose three frames link in a cycle `a → b → c → a`. -/
def cyclePage : List Element :=
  [ Element.mk "a" "A" "FRAME" 375 812 [] [navButton "ba" "b"],
    Element.mk "b" "B" "FRAME" 375 812 [] [navButton "bb" "c"],
    Element.mk "c" "C" "FRAME" 375 812 [] [navButton "bc" "a"] ]

/-- Destination resolution for `cyclePage`. -/
def cycleRd : String → Option TopFrame := fun s =>
  if s = "a" then some { id := "a", name := "A", width := 375, height := 812 }
  else if s = "b" then some { id := "b", name := "B", width := 375, height := 812 }
  else if s = "c" then some { id := "c", name := "C", width := 375, height := 812 }
  else none

/-- A page with one frame holding two identical navigation records to the
same destination. -/
def parallelPage : List Element :=
  [ Element.mk "a" "A" "FRAME" 375 812 []
      [Element.mk "btn" "Button" "INSTANCE" 100 44
        [navReaction "b", navReaction "b"] []] ]

/-- Destination resolution for `parallelPage`. -/
def parallelRd : String → Option TopFrame := fun s =>
  if s = "b" then some { id := "b", name := "B", width := 100, height := 200 }
  else none

/-- The edge from `"a"` to `"b"` recorded by the scanner on these pages. -/
def edgeAB : FlowEdge :=
  { sourceId := "a", targetId := "b", trigger := "ON_CLICK", action := "NAVIGATE" }

/-- A flow graph with `n` screens and no edges. -/
def graphOfSize (n : Nat) : FlowGraph :=
  { nodes := (List.range n).map (fun i =>
      { id := toString i, name := "Screen", width := 375, height := 812 }),
    edges := [], startingPointIds := [] }

/-- Two edges whose concatenated color keys collide
(`"a" + "-" + "b-c" = "a-b" + "-" + "c"`). -/
def collideLayout : LayoutResult :=
  { nodes := [],
    edges := [ { sourceId := "a", targetId := "b-c", trigger := "ON_CLICK",
                 action := "NAVIGATE", points := [] },
               { sourceId := "a-b", targetId := "c", trigger := "ON_CLICK",
                 action := "NAVIGATE", points := [] } ] }

/-- The first colliding edge of `collideLayout`. -/
def collideEdge : LayoutEdge :=
  { sourceId := "a", targetId := "b-c", trigger := "ON_CLICK",
    action := "NAVIGATE", points := [] }

/-- A layout with six edges out of six distinct sources (collision-free
keys). -/
def sixSourceLayout : LayoutResult :=
  { nodes := [],
    edges := (List.range 6).map (fun i =>
      { sourceId := "s" ++ toString i, targetId := "t" ++ toString i,
        trigger := "ON_CLICK", action := "NAVIGATE", points := [] }) }

/-- The first and sixth edges of `sixSourceLayout`. -/
def sixEdge (i : Nat) : LayoutEdge :=
  { sourceId := "s" ++ toString i, targetId := "t" ++ toString i,
    trigger := "ON_CLICK", action := "NAVIGATE", points := [] }

/-- A two-node graph with the single edge `a → b` and no cycle. -/
def graphAB : FlowGraph :=
  { nodes := [ { id := "a", name := "A", width := 375, height := 812 },
               { id := "b", name := "B", width := 375, height := 812 } ],
    edges := [edgeAB], startingPointIds := ["a"] }

/-! ## Helper lemmas -/

/-- Folding a function that ignores its second argument is the identity. -/
theorem foldl_const {α β : Type} (l : List β) (a : α) :
    l.foldl (fun acc _ => acc) a = a := by
  induction l generalizing a with
  | nil => rfl
  | cons x xs ih => exact ih a

/-- The push-if-loop over a list is `filter`. -/
theorem foldl_push_filter {α : Type} (p : α → Bool) (l : List α) :
    ∀ acc, l.foldl (fun acc x => if p x then acc ++ [x] else acc) acc
      = acc ++ l.filter p := by
  induction l with
  | nil => intro acc; simp
  | cons x xs ih =>
      intro acc
      by_cases h : p x <;> simp [h, ih]

/-- The push-if-not-loop over a list, pushing the image, is a mapped
filter. -/
theorem foldl_push_filter_map {α β : Type} (p : α → Bool) (f : α → β) (l : List α) :
    ∀ acc, l.foldl (fun acc x => if p x then acc else acc ++ [f x]) acc
      = acc ++ (l.filter (fun x => !p x)).map f := by
  induction l with
  | nil => intro acc; simp
  | cons x xs ih =>
      intro acc
      by_cases h : p x <;> simp [h, ih]

/-- Folding a list preserves any invariant the step function preserves. -/
theorem foldl_preserves {α β : Type} (P : α → Prop) (f : α → β → α)
    (hf : ∀ a b, P a → P (f a b)) :
    ∀ (l : List β) (a : α), P a → P (l.foldl f a) := by
  intro l
  induction l with
  | nil => intro a h; exact h
  | cons x xs ih => intro a h; exact ih _ (hf _ _ h)

/-! ## C1: a single isolated container with no interaction records -/

/-- C1, counterexample.  The claim says extraction of a page with a single
isolated top-level container and no interaction records yields one node with
itself as the sole starting point; in fact the scanner only registers nodes
that take part in some transition, so the result is the empty graph. -/
theorem c1_isolated_node_counterexample :
    ¬ ((scanPrototypeConnections lonelyPage (fun _ => none) []).nodes.length = 1 ∧
       (scanPrototypeConnections lonelyPage (fun _ => none) []).startingPointIds
         = ["frame1"]) := by
  have h : scanPrototypeConnections lonelyPage (fun _ => none) []
      = { nodes := [], edges := [], startingPointIds := [] } := by
    simp [scanPrototypeConnections, lonelyPage, walkElems]
  rw [h]
  intro hc
  simp at hc

/-- C1, amended: extraction of a page containing a single top-level container
with no interaction records (and no children) yields the empty graph — no
nodes, no edges and no starting points — regardless of the container's
attributes, of destination resolution and of declared starting points. -/
theorem c1_isolated_node_amended (id name etype : String) (w h : ℚ)
    (rd : String → Option TopFrame) (sps : List String) :
    scanPrototypeConnections [Element.mk id name etype w h [] []] rd sps
      = { nodes := [], edges := [], startingPointIds := [] } := by
  simp only [scanPrototypeConnections, walkElems, List.foldl_cons, List.foldl_nil]
  simp [foldl_const]

/-! ## C2: no zero-length special case in `createArrow` -/

/-- C2: at coincident anchor points the divisor `len` of `createArrow` is
exactly `0`, the division is still performed (`ux = 0 / 0 = NaN`), and the
arrow is produced with every coordinate `NaN` — it is neither skipped nor
well-defined, contradicting the required special-casing. -/
theorem c2_coincident_anchor_nan :
    arrowLenJs (.num 0) (.num 0) (.num 0) (.num 0) = .num 0 ∧
    createArrowJs (.num 0) (.num 0) (.num 0) (.num 0)
      = { x := .nan, y := .nan, rsx := .nan, rsy := .nan, rex := .nan,
          rey := .nan, rax1 := .nan, ray1 := .nan, rax2 := .nan, ray2 := .nan } := by
  refine ⟨?_, ?_⟩ <;>
    simp [createArrowJs, arrowLenJs, jsSub, jsAdd, jsNeg, jsMul, jsDiv, jsSqrt, jsMin]

/-! ## C10: layout preserves node and edge structure -/

/-- C10: for every graph and direction, `computeLayout` returns nodes with
exactly the input's ids and names in the input order, each with the fixed
render size 324×252 (independent of the original dimensions), and edges in
the input order with `sourceId`, `targetId`, `trigger` and `action`
unchanged; only positions and route points are newly computed. -/
theorem c10_layout_preserves_structure (g : FlowGraph) (dir : Dir) :
    ((computeLayout g dir).nodes.map (fun n => (n.id, n.name, n.width, n.height))
        = g.nodes.map (fun n => (n.id, n.name, (324 : Int), (252 : Int)))) ∧
    ((computeLayout g dir).edges.map (fun e => (e.sourceId, e.targetId, e.trigger, e.action))
        = g.edges.map (fun e => (e.sourceId, e.targetId, e.trigger, e.action))) := by
  constructor <;> simp [computeLayout]

/-! ## C8: registration rounds dimensions, first registration wins -/

/-- C8: at node registration the stored width and height are the reported
dimensions rounded to the nearest integer (`(375.5, 812.7)` registers as
`(376, 813)`), and a registration attempt for an already-registered id leaves
the stored name, width and height unchanged; end to end, scanning `dimPage`
stores the rounded dimensions. -/
theorem c8_registration_rounding :
    (∀ (nodes : List FlowNode) (f : TopFrame),
        nodes.any (fun n => n.id == f.id) = false →
        registerNode nodes f
          = nodes ++ [{ id := f.id, name := f.name,
                        width := jsRound f.width, height := jsRound f.height }]) ∧
    (∀ (nodes : List FlowNode) (f : TopFrame),
        nodes.any (fun n => n.id == f.id) = true → registerNode nodes f = nodes) ∧
    jsRound (375.5 : ℚ) = 376 ∧ jsRound (812.7 : ℚ) = 813 ∧
    (scanPrototypeConnections dimPage dimRd []).nodes
      = [ { id := "f1", name := "Home", width := 376, height := 813 },
          { id := "f2", name := "Details", width := 375, height := 812 } ] := by
  refine ⟨?_, ?_, ?_, ?_, ?_⟩
  · intro nodes f h
    simp [registerNode, h]
  · intro nodes f h
    simp [registerNode, h]
  · norm_num [jsRound]
  · norm_num [jsRound]
  · simp [scanPrototypeConnections, dimPage, dimRd, navButton, navReaction, walkElems,
      processReaction, registerNode, topFrameOf]
    norm_num [jsRound]

/-- C8, witness: a fresh registration stores rounded dimensions; repeating the
registration with a different name and different dimensions changes
nothing. -/
theorem c8_registration_rounding_witness :
    registerNode [] { id := "f1", name := "Home", width := 375.5, height := 812.7 }
      = [{ id := "f1", name := "Home", width := 376, height := 813 }] ∧
    registerNode [{ id := "f1", name := "Home", width := 376, height := 813 }]
        { id := "f1", name := "Fresh", width := 10.2, height := 20.6 }
      = [{ id := "f1", name := "Home", width := 376, height := 813 }] := by
  have h1 := c8_registration_rounding.1 []
    { id := "f1", name := "Home", width := 375.5, height := 812.7 } (by decide)
  have h2 := c8_registration_rounding.2.1
    [{ id := "f1", name := "Home", width := 376, height := 813 }]
    { id := "f1", name := "Fresh", width := 10.2, height := 20.6 } (by decide)
  refine ⟨?_, h2⟩
  rw [h1]
  norm_num [jsRound]

/-! ## C6: screen-count tier gating of the scan request -/

/-- C6: a non-empty graph within the active tier's `maxScreens` is accepted;
a graph over the limit is rejected (no generation proceeds) with a message
containing both the limit and the found count; under the pro tier
(`maxScreens` unbounded) every non-empty graph is accepted. -/
theorem c6_scan_tier_gating (g : FlowGraph) (tier : TierConfig) :
    (g.nodes.length ≠ 0 →
      exceedsMaxScreens g.nodes.length tier.maxScreens = false →
      handleScan g tier = ScanOutcome.accepted g) ∧
    (g.nodes.length ≠ 0 →
      exceedsMaxScreens g.nodes.length tier.maxScreens = true →
      handleScan g tier = ScanOutcome.errorMsg (tierLimitMessage tier g.nodes.length) ∧
      strContains (tierLimitMessage tier g.nodes.length) (maxScreensString tier.maxScreens) ∧
      strContains (tierLimitMessage tier g.nodes.length) (toString g.nodes.length)) ∧
    (g.nodes.length ≠ 0 → handleScan g TIERS_pro = ScanOutcome.accepted g) := by
  refine ⟨?_, ?_, ?_⟩
  · intro h0 hex
    simp [handleScan, h0, hex]
  · intro h0 hex
    refine ⟨by simp [handleScan, h0, hex], ?_, ?_⟩
    · exact ⟨"Free tier supports up to ",
        " screens. Found " ++ toString g.nodes.length ++ ". Upgrade to Pro for unlimited.",
        by simp [tierLimitMessage, String.append_assoc]⟩
    · exact ⟨"Free tier supports up to " ++ maxScreensString tier.maxScreens ++ " screens. Found ",
        ". Upgrade to Pro for unlimited.",
        by simp [tierLimitMessage, String.append_assoc]⟩
  · intro h0
    simp [handleScan, h0, exceedsMaxScreens, TIERS_pro]

/-- C6, witness: 10 screens are accepted under the free tier; 11 screens are
rejected with a message containing `"10"` and `"11"`; 11 screens are accepted
under pro. -/
theorem c6_scan_tier_gating_witness :
    handleScan (graphOfSize 10) TIERS_free = ScanOutcome.accepted (graphOfSize 10) ∧
    handleScan (graphOfSize 11) TIERS_free
      = ScanOutcome.errorMsg (tierLimitMessage TIERS_free 11) ∧
    strContains (tierLimitMessage TIERS_free 11) "10" ∧
    strContains (tierLimitMessage TIERS_free 11) "11" ∧
    handleScan (graphOfSize 11) TIERS_pro = ScanOutcome.accepted (graphOfSize 11) := by
  have hlen : (graphOfSize 11).nodes.length = 11 := by decide
  have h1 := (c6_scan_tier_gating (graphOfSize 10) TIERS_free).1 (by decide) (by decide)
  have h2 := (c6_scan_tier_gating (graphOfSize 11) TIERS_free).2.1 (by decide) (by decide)
  have h3 := (c6_scan_tier_gating (graphOfSize 11) TIERS_pro).2.2 (by decide)
  rw [hlen] at h2
  have hmax : maxScreensString TIERS_free.maxScreens = "10" := by decide
  have h11 : toString (11 : Nat) = "11" := by decide
  rw [hmax, h11] at h2
  exact ⟨h1, h2.1, h2.2.1, h2.2.2, h3⟩

/-! ## C3: starting-point selection -/

/-- C3: `startingPointIds` is the declared starting points filtered to ids
present in the node set (in declaration order) and, when that filter is empty
(in particular when no markers are declared), the ids of the nodes without
incoming edges in discovery order; consequently, when every node has an
incoming edge and no declared marker resolves, `startingPointIds` is
empty. -/
theorem c3_starting_points (pageChildren : List Element)
    (rd : String → Option TopFrame) (sps : List String) :
    ((scanPrototypeConnections pageChildren rd sps).startingPointIds
      = if sps.filter (fun spId =>
            (scanPrototypeConnections pageChildren rd sps).nodes.any
              (fun n => n.id == spId)) = []
        then ((scanPrototypeConnections pageChildren rd sps).nodes.filter (fun n =>
            !((scanPrototypeConnections pageChildren rd sps).edges.map
                (fun e => e.targetId)).contains n.id)).map (fun n => n.id)
        else sps.filter (fun spId =>
            (scanPrototypeConnections pageChildren rd sps).nodes.any
              (fun n => n.id == spId))) ∧
    ((∀ n ∈ (scanPrototypeConnections pageChildren rd sps).nodes,
        ∃ e ∈ (scanPrototypeConnections pageChildren rd sps).edges, e.targetId = n.id) →
      sps.filter (fun spId =>
        (scanPrototypeConnections pageChildren rd sps).nodes.any
          (fun n => n.id == spId)) = [] →
      (scanPrototypeConnections pageChildren rd sps).startingPointIds = []) := by
  unfold scanPrototypeConnections
  generalize (pageChildren.foldl
    (fun st root => walkElems rd (topFrameOf root) [root] st) (([], []) : ScanState)) = st
  obtain ⟨nodes, edges⟩ := st
  simp only
  rw [foldl_push_filter, foldl_push_filter_map]
  simp only [List.nil_append, List.length_eq_zero]
  constructor
  · trivial
  · intro hin hdecl
    rw [hdecl]
    simp only [if_true, List.map_eq_nil_iff, List.filter_eq_nil_iff]
    intro n hn
    obtain ⟨e, he, het⟩ := hin n hn
    have hmem : n.id ∈ edges.map (fun e => e.targetId) :=
      List.mem_map.mpr ⟨e, he, het⟩
    simp only [Bool.not_eq_true, Bool.not_eq_false]
    simp [List.elem_eq_true_of_mem hmem]
    exact ⟨e, he, het⟩

/-- C3, witness: on the 3-cycle `a → b → c → a` with no declared markers,
every node has an incoming edge and `startingPointIds` is empty. -/
theorem c3_starting_points_witness :
    (scanPrototypeConnections cyclePage cycleRd []).startingPointIds = [] := by
  have hn : (scanPrototypeConnections cyclePage cycleRd []).nodes
      = [ { id := "a", name := "A", width := 375, height := 812 },
          { id := "b", name := "B", width := 375, height := 812 },
          { id := "c", name := "C", width := 375, height := 812 } ] := by
    simp [scanPrototypeConnections, cyclePage, cycleRd, navButton, navReaction,
      walkElems, processReaction, registerNode, topFrameOf]
    norm_num [jsRound]
  have he : (scanPrototypeConnections cyclePage cycleRd []).edges
      = [ { sourceId := "a", targetId := "b", trigger := "ON_CLICK", action := "NAVIGATE" },
          { sourceId := "b", targetId := "c", trigger := "ON_CLICK", action := "NAVIGATE" },
          { sourceId := "c", targetId := "a", trigger := "ON_CLICK", action := "NAVIGATE" } ] := by
    simp [scanPrototypeConnections, cyclePage, cycleRd, navButton, navReaction,
      walkElems, processReaction, registerNode, topFrameOf]
  have h := (c3_starting_points cyclePage cycleRd []).2
  rw [hn, he] at h
  exact h (by decide) (by decide)

/-! ## C4: well-formedness of extracted graphs -/

/-- The invariant the scanner's state maintains: node ids are pairwise
distinct, edges never loop, and edge endpoints are registered. -/
def WellFormedState (st : ScanState) : Prop :=
  (st.1.map (fun n => n.id)).Nodup ∧
  ∀ e ∈ st.2, e.sourceId ≠ e.targetId ∧
    e.sourceId ∈ st.1.map (fun n => n.id) ∧ e.targetId ∈ st.1.map (fun n => n.id)

/-- Registration never removes an id. -/
theorem mem_map_id_registerNode {nodes : List FlowNode} {f : TopFrame} {x : String}
    (hx : x ∈ nodes.map (fun n => n.id)) :
    x ∈ (registerNode nodes f).map (fun n => n.id) := by
  unfold registerNode
  by_cases h : nodes.any (fun n => n.id == f.id)
  · simp only [h, if_true]
    exact hx
  · simp only [h, if_false, Bool.false_eq_true, List.map_append]
    exact List.mem_append_left _ hx

/-- After registering `f`, its id is present. -/
theorem fid_mem_registerNode (nodes : List FlowNode) (f : TopFrame) :
    f.id ∈ (registerNode nodes f).map (fun n => n.id) := by
  unfold registerNode
  by_cases h : nodes.any (fun n => n.id == f.id)
  · simp only [h, if_true]
    obtain ⟨n, hn, hid⟩ := List.any_eq_true.mp h
    have hid' : n.id = f.id := by simpa using hid
    exact List.mem_map.mpr ⟨n, hn, hid'⟩
  · simp [h]

/-- Registration preserves distinctness of ids. -/
theorem nodup_registerNode {nodes : List FlowNode} (f : TopFrame)
    (h : (nodes.map (fun n => n.id)).Nodup) :
    ((registerNode nodes f).map (fun n => n.id)).Nodup := by
  unfold registerNode
  by_cases hany : nodes.any (fun n => n.id == f.id)
  · simpa [hany]
  · have hnot : f.id ∉ nodes.map (fun n => n.id) := by
      intro hmem
      obtain ⟨n, hn, hid⟩ := List.mem_map.mp hmem
      have : nodes.any (fun n => n.id == f.id) = true :=
        List.any_eq_true.mpr ⟨n, hn, by simpa using hid⟩
      exact absurd this (by simpa using hany)
    simp only [hany, if_false, Bool.false_eq_true, List.map_append]
    rw [List.nodup_append]
    refine ⟨h, by simp, ?_⟩
    intro x hx
    simp only [List.map_cons, List.map_nil, List.mem_singleton]
    intro hxe
    subst hxe
    exact hnot hx

/-- One reaction step preserves the invariant. -/
theorem processReaction_preserves (rd : String → Option TopFrame)
    (sf : Option TopFrame) (st : ScanState) (r : Reaction)
    (h : WellFormedState st) : WellFormedState (processReaction rd sf st r) := by
  unfold processReaction
  rcases hact : r.action with _ | a
  · exact h
  · simp only [hact]
    rcases hdest : a.destinationId with _ | d
    · exact h
    · simp only [hdest]
      rcases sf with _ | sfr
      · exact h
      · rcases hrd : rd d with _ | dfr
        · simp only [hrd]
          exact h
        · simp only [hrd]
          by_cases hne : sfr.id ≠ dfr.id
          · rw [if_pos hne]
            obtain ⟨hnodup, hedges⟩ := h
            refine ⟨nodup_registerNode _ (nodup_registerNode _ hnodup), ?_⟩
            intro e he
            rcases List.mem_append.mp he with hold | hnew
            · obtain ⟨h1, h2, h3⟩ := hedges e hold
              exact ⟨h1, mem_map_id_registerNode (mem_map_id_registerNode h2),
                mem_map_id_registerNode (mem_map_id_registerNode h3)⟩
            · have heq :
                  e = { sourceId := sfr.id, targetId := dfr.id,
                        trigger := r.triggerType.getD "ON_CLICK",
                        action := a.actionType.getD "NAVIGATE" } :=
                List.mem_singleton.mp hnew
              subst heq
              exact ⟨hne, mem_map_id_registerNode (fid_mem_registerNode _ _),
                fid_mem_registerNode _ _⟩
          · rw [if_neg hne]
            exact h

/-- The element walk preserves the invariant. -/
theorem walkElems_preserves (rd : String → Option TopFrame) (sf : Option TopFrame) :
    ∀ (l : List Element) (st : ScanState),
      WellFormedState st → WellFormedState (walkElems rd sf l st)
  | [], st, h => by
      rw [walkElems]
      exact h
  | .mk i n t w hh rs cs :: rest, st, h => by
      rw [walkElems]
      exact walkElems_preserves rd sf rest _
        (walkElems_preserves rd sf cs _
          (foldl_preserves WellFormedState (processReaction rd sf)
            (processReaction_preserves rd sf) rs st h))
termination_by l => sizeOf l
decreasing_by all_goals (simp <;> omega)

/-- C4: every extracted graph is well-formed — node ids are pairwise
distinct, no edge is a self-loop, and every edge's endpoints are nodes of the
same graph; parallel edges with the same endpoint pair are kept (scanning a
frame with two identical records yields the same edge twice). -/
theorem c4_graph_well_formed :
    (∀ (pageChildren : List Element) (rd : String → Option TopFrame) (sps : List String),
      ((scanPrototypeConnections pageChildren rd sps).nodes.map (fun n => n.id)).Nodup ∧
      ∀ e ∈ (scanPrototypeConnections pageChildren rd sps).edges,
        e.sourceId ≠ e.targetId ∧
        e.sourceId ∈ (scanPrototypeConnections pageChildren rd sps).nodes.map (fun n => n.id) ∧
        e.targetId ∈ (scanPrototypeConnections pageChildren rd sps).nodes.map (fun n => n.id)) ∧
    (scanPrototypeConnections parallelPage parallelRd []).edges = [edgeAB, edgeAB] := by
  constructor
  · intro pageChildren rd sps
    have hws : WellFormedState (pageChildren.foldl
        (fun st root => walkElems rd (topFrameOf root) [root] st) (([], []) : ScanState)) := by
      refine foldl_preserves WellFormedState _ ?_ pageChildren ([], []) ?_
      · intro st root hst
        exact walkElems_preserves rd (topFrameOf root) [root] st hst
      · exact ⟨List.nodup_nil, by simp⟩
    obtain ⟨hnodup, hedges⟩ := hws
    constructor
    · simpa [scanPrototypeConnections] using hnodup
    · intro e he
      have he' : e ∈ (pageChildren.foldl
          (fun st root => walkElems rd (topFrameOf root) [root] st) (([], []) : ScanState)).2 := by
        simpa [scanPrototypeConnections] using he
      have hps := hedges e he'
      refine ⟨hps.1, ?_, ?_⟩
      · simpa [scanPrototypeConnections] using hps.2.1
      · simpa [scanPrototypeConnections] using hps.2.2
  · simp [scanPrototypeConnections, parallelPage, parallelRd, navReaction, walkElems,
      processReaction, registerNode, topFrameOf, edgeAB]

/-- C4, witness: the parallel edge of `parallelPage` is a non-loop whose
endpoints are both registered nodes of the extracted graph. -/
theorem c4_graph_well_formed_witness :
    edgeAB.sourceId ≠ edgeAB.targetId ∧
    edgeAB.sourceId ∈ (scanPrototypeConnections parallelPage parallelRd []).nodes.map (fun n => n.id) ∧
    edgeAB.targetId ∈ (scanPrototypeConnections parallelPage parallelRd []).nodes.map (fun n => n.id) := by
  have hmem : edgeAB ∈ (scanPrototypeConnections parallelPage parallelRd []).edges := by
    rw [c4_graph_well_formed.2]
    simp
  exact (c4_graph_well_formed.1 parallelPage parallelRd []).2 edgeAB hmem

/-! ## C5: color assignment -/

/-- Unfolding `jsMapGet` on a cons. -/
theorem jsMapGet_cons (q : String × RGB) (l : List (String × RGB)) (k : String) :
    jsMapGet (q :: l) k = if q.1 == k then some q.2 else jsMapGet l k := by
  by_cases h : q.1 == k
  · simp [jsMapGet, List.find?_cons_of_pos, h]
  · simp [jsMapGet, List.find?_cons_of_neg, h]

/-- Looking up the key just set yields the value just set. -/
theorem jsMapGet_jsMapSet_self (m : List (String × RGB)) (k : String) (v : RGB) :
    jsMapGet (jsMapSet m k v) k = some v := by
  induction m with
  | nil => simp [jsMapSet, jsMapGet_cons, jsMapGet]
  | cons p m ih =>
      by_cases hpk : p.1 == k
      · have hany : (p :: m).any (fun q => q.1 == k) = true := by
          simp [List.any_cons, hpk]
        rw [jsMapSet, if_pos hany, List.map_cons, if_pos hpk, jsMapGet_cons]
        simp
      · by_cases hm : m.any (fun q => q.1 == k)
        · have hany : (p :: m).any (fun q => q.1 == k) = true := by
            simp [List.any_cons, hm]
          rw [jsMapSet, if_pos hm] at ih
          rw [jsMapSet, if_pos hany, List.map_cons, if_neg hpk, jsMapGet_cons,
            if_neg hpk]
          exact ih
        · have hany : ¬ (p :: m).any (fun q => q.1 == k) = true := by
            simp [List.any_cons, hm]
            simpa using hpk
          rw [jsMapSet, if_neg hm] at ih
          rw [jsMapSet, if_neg hany, List.cons_append, jsMapGet_cons, if_neg hpk]
          exact ih

/-- Overwriting key `k` in place does not change the value found at another
key. -/
theorem jsMapGet_map_overwrite (k k' : String) (v : RGB) (hne : k ≠ k') :
    ∀ l : List (String × RGB),
      jsMapGet (l.map (fun q => if q.1 == k then (k, v) else q)) k' = jsMapGet l k' := by
  intro l
  induction l with
  | nil => simp [jsMapGet]
  | cons q l ih =>
      rw [List.map_cons, jsMapGet_cons, jsMapGet_cons]
      by_cases hq : q.1 == k
      · have hq1 : q.1 = k := by simpa using hq
        have h1 : (k == k') = false := by simpa using hne
        rw [if_pos hq, if_neg (by simp [h1]), if_neg (by simp [hq1, h1])]
        exact ih
      · rw [if_neg hq]
        by_cases hq' : q.1 == k'
        · rw [if_pos hq', if_pos hq']
        · rw [if_neg hq', if_neg hq']
          exact ih

/-- Appending a binding for key `k` does not change the value found at
another key. -/
theorem jsMapGet_append_single (k k' : String) (v : RGB) (hne : k ≠ k') :
    ∀ l : List (String × RGB), jsMapGet (l ++ [(k, v)]) k' = jsMapGet l k' := by
  intro l
  induction l with
  | nil =>
      have h1 : (k == k') = false := by simpa using hne
      simp [jsMapGet, h1]
  | cons q l ih =>
      rw [List.cons_append, jsMapGet_cons, jsMapGet_cons]
      by_cases hq : q.1 == k'
      · rw [if_pos hq, if_pos hq]
      · rw [if_neg hq, if_neg hq]
        exact ih

/-- Setting key `k` leaves every other key's value unchanged. -/
theorem jsMapGet_jsMapSet_ne (m : List (String × RGB)) (k k' : String) (v : RGB)
    (hne : k ≠ k') : jsMapGet (jsMapSet m k v) k' = jsMapGet m k' := by
  rw [jsMapSet]
  by_cases hm : m.any (fun q => q.1 == k)
  · rw [if_pos hm]
    exact jsMapGet_map_overwrite k k' v hne m
  · rw [if_neg hm]
    exact jsMapGet_append_single k k' v hne m

/-- Folding writes that never touch key `k` leaves its value unchanged. -/
theorem jsMapGet_foldl_of_not_written (k : String) :
    ∀ (writes : List (String × RGB)) (m0 : List (String × RGB)),
      (∀ w ∈ writes, w.1 ≠ k) →
      jsMapGet (writes.foldl (fun m w => jsMapSet m w.1 w.2) m0) k = jsMapGet m0 k := by
  intro writes
  induction writes with
  | nil => intro m0 _; rfl
  | cons w ws ih =>
      intro m0 hk
      rw [List.foldl_cons]
      rw [ih _ (fun x hx => hk x (List.mem_cons_of_mem w hx))]
      exact jsMapGet_jsMapSet_ne m0 w.1 k w.2 (hk w (List.mem_cons_self w ws))

/-- Folding a consistent write list (equal keys always carry equal values)
produces a map sending every written key to its value. -/
theorem jsMapGet_foldl_consistent :
    ∀ (writes : List (String × RGB)) (m0 : List (String × RGB)),
      (∀ p ∈ writes, ∀ q ∈ writes, p.1 = q.1 → p.2 = q.2) →
      ∀ p ∈ writes,
        jsMapGet (writes.foldl (fun m w => jsMapSet m w.1 w.2) m0) p.1 = some p.2 := by
  intro writes
  induction writes with
  | nil => intro m0 _ p hp; exact absurd hp (List.not_mem_nil p)
  | cons w ws ih =>
      intro m0 hcons p hp
      rw [List.foldl_cons]
      rcases List.mem_cons.mp hp with hpw | hpm
      · subst hpw
        by_cases hex : ∃ q ∈ ws, q.1 = p.1
        · obtain ⟨q, hq, hqk⟩ := hex
          have hv : q.2 = p.2 :=
            hcons q (List.mem_cons_of_mem _ hq) p (List.mem_cons_self _ _) hqk
          have hres := ih (jsMapSet m0 p.1 p.2)
            (fun a ha b hb hab =>
              hcons a (List.mem_cons_of_mem _ ha) b (List.mem_cons_of_mem _ hb) hab)
            q hq
          rw [hqk, hv] at hres
          exact hres
        · push_neg at hex
          rw [jsMapGet_foldl_of_not_written p.1 ws _ (fun x hx => hex x hx)]
          exact jsMapGet_jsMapSet_self m0 p.1 p.2
      · exact ih (jsMapSet m0 w.1 w.2)
          (fun a ha b hb hab =>
            hcons a (List.mem_cons_of_mem _ ha) b (List.mem_cons_of_mem _ hb) hab)
          p hpm

/-- C5, counterexample.  The claim fails as stated: the color map is keyed by
the concatenated string `sourceId ++ "-" ++ targetId`, and ids containing
`"-"` can collide.  In `collideLayout` the edge `("a", "b-c")` has source
index 0, but its key `"a-b-c"` is overwritten by the edge `("a-b", "c")`
(source index 1), so its looked-up color is not the palette color at its
source's index. -/
theorem c5_assign_colors_counterexample :
    (setDedup (collideLayout.edges.map (fun e => e.sourceId))).indexOf
        collideEdge.sourceId % FLOW_COLORS.length = 0 ∧
    collideEdge ∈ collideLayout.edges ∧
    jsMapGet (assignFlowColors collideLayout) (edgeColorKey collideEdge)
      ≠ some (FLOW_COLORS.getD 0 { r := 0, g := 0, b := 0 }) := by
  refine ⟨by decide, by decide, ?_⟩
  have hval : jsMapGet (assignFlowColors collideLayout) (edgeColorKey collideEdge)
      = some (FLOW_COLORS.getD 1 { r := 0, g := 0, b := 0 }) := rfl
  rw [hval]
  simp only [ne_eq, Option.some.injEq]
  intro hc
  have hr := congrArg RGB.r hc
  simp [FLOW_COLORS] at hr
  norm_num at hr

/-- C5, amended: provided no two edges with distinct source ids share the
same concatenated key string (the collision the counterexample exhibits),
every edge's key maps to the palette color at the index of its source in the
first-appearance list of distinct sources, modulo the palette length; and the
mapping is a pure function of the edge list alone. -/
theorem c5_assign_colors_amended (layout : LayoutResult)
    (hkeys : ∀ e1 ∈ layout.edges, ∀ e2 ∈ layout.edges,
      edgeColorKey e1 = edgeColorKey e2 → e1.sourceId = e2.sourceId) :
    (∀ e ∈ layout.edges,
      jsMapGet (assignFlowColors layout) (edgeColorKey e)
        = some (FLOW_COLORS.getD
            ((setDedup (layout.edges.map (fun x => x.sourceId))).indexOf e.sourceId
              % FLOW_COLORS.length) { r := 0, g := 0, b := 0 })) ∧
    (∀ l2 : LayoutResult, l2.edges = layout.edges →
      assignFlowColors l2 = assignFlowColors layout) := by
  constructor
  · intro e he
    have hfold : assignFlowColors layout
        = (layout.edges.map (fun e => (edgeColorKey e, FLOW_COLORS.getD
            ((setDedup (layout.edges.map (fun x => x.sourceId))).indexOf e.sourceId
              % FLOW_COLORS.length) { r := 0, g := 0, b := 0 }))).foldl
            (fun m w => jsMapSet m w.1 w.2) [] := by
      simp only [assignFlowColors]
      rw [List.foldl_map]
    rw [hfold]
    have hcons : ∀ p ∈ (layout.edges.map (fun e => (edgeColorKey e, FLOW_COLORS.getD
          ((setDedup (layout.edges.map (fun x => x.sourceId))).indexOf e.sourceId
            % FLOW_COLORS.length) { r := 0, g := 0, b := 0 }))),
        ∀ q ∈ (layout.edges.map (fun e => (edgeColorKey e, FLOW_COLORS.getD
          ((setDedup (layout.edges.map (fun x => x.sourceId))).indexOf e.sourceId
            % FLOW_COLORS.length) { r := 0, g := 0, b := 0 }))),
        p.1 = q.1 → p.2 = q.2 := by
      intro p hp q hq hpq
      obtain ⟨e1, he1, rfl⟩ := List.mem_map.mp hp
      obtain ⟨e2, he2, rfl⟩ := List.mem_map.mp hq
      have hsrc : e1.sourceId = e2.sourceId := hkeys e1 he1 e2 he2 hpq
      simp [hsrc]
    exact jsMapGet_foldl_consistent _ [] hcons _ (List.mem_map.mpr ⟨e, he, rfl⟩)
  · intro l2 h2
    simp only [assignFlowColors, h2]

/-- C5, witness: with six collision-free edges out of six distinct sources,
the sixth source's edge wraps around the 5-color palette and receives the
same color as the first source's edge. -/
theorem c5_assign_colors_amended_witness :
    jsMapGet (assignFlowColors sixSourceLayout) (edgeColorKey (sixEdge 5))
      = some (FLOW_COLORS.getD 0 { r := 0, g := 0, b := 0 }) ∧
    jsMapGet (assignFlowColors sixSourceLayout) (edgeColorKey (sixEdge 0))
      = some (FLOW_COLORS.getD 0 { r := 0, g := 0, b := 0 }) := by
  have h := (c5_assign_colors_amended sixSourceLayout (by decide)).1
  have h5 := h (sixEdge 5) (by decide)
  have h0 := h (sixEdge 0) (by decide)
  have i5 : (setDedup (sixSourceLayout.edges.map (fun x => x.sourceId))).indexOf
      (sixEdge 5).sourceId % FLOW_COLORS.length = 0 := by decide
  have i0 : (setDedup (sixSourceLayout.edges.map (fun x => x.sourceId))).indexOf
      (sixEdge 0).sourceId % FLOW_COLORS.length = 0 := by decide
  rw [i5] at h5
  rw [i0] at h0
  exact ⟨h5, h0⟩

/-! ## C7: arrow origin and translation invariance -/

/-- The four-way minimum commutes with adding a constant. -/
theorem minOf4_add (a b c d t : ℚ) :
    minOf4 (a + t) (b + t) (c + t) (d + t) = minOf4 a b c d + t := by
  simp [minOf4, min_add_add_right]

/-- Rebasing four values at their own minimum leaves minimum zero. -/
theorem minOf4_sub_self (a b c d : ℚ) :
    minOf4 (a - minOf4 a b c d) (b - minOf4 a b c d)
      (c - minOf4 a b c d) (d - minOf4 a b c d) = 0 := by
  simp only [minOf4, min_sub_sub_right]
  exact sub_self _

/-- Translating both anchors translates all four arrow points. -/
theorem arrowPoints_translate (sqrtFn : ℚ → ℚ) (x1 y1 x2 y2 tx ty : ℚ) :
    arrowPoints sqrtFn (x1 + tx) (y1 + ty) (x2 + tx) (y2 + ty)
      = (((arrowPoints sqrtFn x1 y1 x2 y2).1.1 + tx,
          (arrowPoints sqrtFn x1 y1 x2 y2).1.2 + ty),
         ((arrowPoints sqrtFn x1 y1 x2 y2).2.1.1 + tx,
          (arrowPoints sqrtFn x1 y1 x2 y2).2.1.2 + ty),
         ((arrowPoints sqrtFn x1 y1 x2 y2).2.2.1.1 + tx,
          (arrowPoints sqrtFn x1 y1 x2 y2).2.2.1.2 + ty),
         ((arrowPoints sqrtFn x1 y1 x2 y2).2.2.2.1 + tx,
          (arrowPoints sqrtFn x1 y1 x2 y2).2.2.2.2 + ty)) := by
  have hdx : x2 + tx - (x1 + tx) = x2 - x1 := by ring
  have hdy : y2 + ty - (y1 + ty) = y2 - y1 := by ring
  simp only [arrowPoints, hdx, hdy, Prod.mk.injEq]
  repeat' apply And.intro
  all_goals ring

/-- C7: for distinct anchors, the arrow element's position is the
componentwise minimum of the shaft endpoints and the two arrowhead points;
the relative path coordinates have minimum `0` in each axis; and translating
both anchors by a common offset shifts the position by exactly that offset
while leaving all path data (and the stroke) unchanged. -/
theorem c7_arrow_position_translation (sqrtFn : ℚ → ℚ) (x1 y1 x2 y2 tx ty : ℚ)
    (color : RGB) (hne : (x1, y1) ≠ (x2, y2)) :
    ((createArrow sqrtFn x1 y1 x2 y2 color).x
        = minOf4 (arrowPoints sqrtFn x1 y1 x2 y2).1.1
            (arrowPoints sqrtFn x1 y1 x2 y2).2.1.1
            (arrowPoints sqrtFn x1 y1 x2 y2).2.2.1.1
            (arrowPoints sqrtFn x1 y1 x2 y2).2.2.2.1 ∧
      (createArrow sqrtFn x1 y1 x2 y2 color).y
        = minOf4 (arrowPoints sqrtFn x1 y1 x2 y2).1.2
            (arrowPoints sqrtFn x1 y1 x2 y2).2.1.2
            (arrowPoints sqrtFn x1 y1 x2 y2).2.2.1.2
            (arrowPoints sqrtFn x1 y1 x2 y2).2.2.2.2) ∧
    (minOf4 (createArrow sqrtFn x1 y1 x2 y2 color).rsx
        (createArrow sqrtFn x1 y1 x2 y2 color).rex
        (createArrow sqrtFn x1 y1 x2 y2 color).rax1
        (createArrow sqrtFn x1 y1 x2 y2 color).rax2 = 0 ∧
      minOf4 (createArrow sqrtFn x1 y1 x2 y2 color).rsy
        (createArrow sqrtFn x1 y1 x2 y2 color).rey
        (createArrow sqrtFn x1 y1 x2 y2 color).ray1
        (createArrow sqrtFn x1 y1 x2 y2 color).ray2 = 0) ∧
    createArrow sqrtFn (x1 + tx) (y1 + ty) (x2 + tx) (y2 + ty) color
      = { x := (createArrow sqrtFn x1 y1 x2 y2 color).x + tx,
          y := (createArrow sqrtFn x1 y1 x2 y2 color).y + ty,
          rsx := (createArrow sqrtFn x1 y1 x2 y2 color).rsx,
          rsy := (createArrow sqrtFn x1 y1 x2 y2 color).rsy,
          rex := (createArrow sqrtFn x1 y1 x2 y2 color).rex,
          rey := (createArrow sqrtFn x1 y1 x2 y2 color).rey,
          rax1 := (createArrow sqrtFn x1 y1 x2 y2 color).rax1,
          ray1 := (createArrow sqrtFn x1 y1 x2 y2 color).ray1,
          rax2 := (createArrow sqrtFn x1 y1 x2 y2 color).rax2,
          ray2 := (createArrow sqrtFn x1 y1 x2 y2 color).ray2,
          stroke := color } := by
  refine ⟨⟨rfl, rfl⟩, ⟨?_, ?_⟩, ?_⟩
  · simpa [createArrow, minOf4] using
      minOf4_sub_self (arrowPoints sqrtFn x1 y1 x2 y2).1.1
        (arrowPoints sqrtFn x1 y1 x2 y2).2.1.1
        (arrowPoints sqrtFn x1 y1 x2 y2).2.2.1.1
        (arrowPoints sqrtFn x1 y1 x2 y2).2.2.2.1
  · simpa [createArrow, minOf4] using
      minOf4_sub_self (arrowPoints sqrtFn x1 y1 x2 y2).1.2
        (arrowPoints sqrtFn x1 y1 x2 y2).2.1.2
        (arrowPoints sqrtFn x1 y1 x2 y2).2.2.1.2
        (arrowPoints sqrtFn x1 y1 x2 y2).2.2.2.2
  · have hp := arrowPoints_translate sqrtFn x1 y1 x2 y2 tx ty
    simp only [createArrow, hp, min_add_add_right, Arrow.mk.injEq]
    repeat' apply And.intro
    all_goals ring

/-- C7, witness: translating the anchors `(0,0)`, `(3,4)` by `(5,7)` shifts
the arrow's position by `(5,7)` and leaves the path data unchanged. -/
theorem c7_arrow_position_translation_witness :
    createArrow (fun q => q) (0 + 5) (0 + 7) (3 + 5) (4 + 7) { r := 0, g := 0, b := 0 }
      = { x := (createArrow (fun q => q) 0 0 3 4 { r := 0, g := 0, b := 0 }).x + 5,
          y := (createArrow (fun q => q) 0 0 3 4 { r := 0, g := 0, b := 0 }).y + 7,
          rsx := (createArrow (fun q => q) 0 0 3 4 { r := 0, g := 0, b := 0 }).rsx,
          rsy := (createArrow (fun q => q) 0 0 3 4 { r := 0, g := 0, b := 0 }).rsy,
          rex := (createArrow (fun q => q) 0 0 3 4 { r := 0, g := 0, b := 0 }).rex,
          rey := (createArrow (fun q => q) 0 0 3 4 { r := 0, g := 0, b := 0 }).rey,
          rax1 := (createArrow (fun q => q) 0 0 3 4 { r := 0, g := 0, b := 0 }).rax1,
          ray1 := (createArrow (fun q => q) 0 0 3 4 { r := 0, g := 0, b := 0 }).ray1,
          rax2 := (createArrow (fun q => q) 0 0 3 4 { r := 0, g := 0, b := 0 }).rax2,
          ray2 := (createArrow (fun q => q) 0 0 3 4 { r := 0, g := 0, b := 0 }).ray2,
          stroke := { r := 0, g := 0, b := 0 } } :=
  (c7_arrow_position_translation (fun q => q) 0 0 3 4 5 7
    { r := 0, g := 0, b := 0 } (by norm_num [Prod.ext_iff])).2.2

/-! ## C9: direction monotonicity of the layout -/

/-- A set is contained in its saturation step. -/
theorem subset_reachStep (edges : List FlowEdge) (s : Finset String) :
    s ⊆ reachStep edges s :=
  Finset.subset_union_left

/-- The saturation step is monotone. -/
theorem reachStep_mono {edges : List FlowEdge} {s t : Finset String}
    (h : s ⊆ t) : reachStep edges s ⊆ reachStep edges t := by
  intro x hx
  rcases Finset.mem_union.mp hx with h1 | h2
  · exact Finset.mem_union_left _ (h h1)
  · refine Finset.mem_union_right _ ?_
    simp only [List.mem_toFinset, List.mem_map, List.mem_filter,
      decide_eq_true_eq] at h2 ⊢
    obtain ⟨e, ⟨he, hs⟩, ht⟩ := h2
    exact ⟨e, ⟨he, h hs⟩, ht⟩
/-- The step only ever adds edge targets. -/
theorem reachStep_subset_union (edges : List FlowEdge) (s : Finset String) :
    reachStep edges s ⊆ s ∪ (edges.map (fun e => e.targetId)).toFinset := by
  intro x hx
  rcases Finset.mem_union.mp hx with h1 | h2
  · exact Finset.mem_union_left _ h1
  · refine Finset.mem_union_right _ ?_
    simp only [List.mem_toFinset, List.mem_map, List.mem_filter,
      decide_eq_true_eq] at h2 ⊢
    obtain ⟨e, ⟨he, _⟩, ht⟩ := h2
    exact ⟨e, he, ht⟩

/-- A set is contained in any of its iterates. -/
theorem subset_reachIter (edges : List FlowEdge) :
    ∀ (n : Nat) (s : Finset String), s ⊆ reachIter edges n s := by
  intro n
  induction n with
  | zero => intro s; exact fun x hx => hx
  | succ n ih =>
      intro s
      simp only [reachIter]
      by_cases h : reachStep edges s = s
      · rw [if_pos h]
      · rw [if_neg h]
        exact subset_trans (subset_reachStep edges s) (ih _)

/-- With enough fuel the iterate is a fixpoint of the step. -/
theorem reachIter_fix (edges : List FlowEdge) :
    ∀ (n : Nat) (s : Finset String),
      ((edges.map (fun e => e.targetId)).toFinset \ s).card < n →
      reachStep edges (reachIter edges n s) = reachIter edges n s := by
  intro n
  induction n with
  | zero => intro s h; exact absurd h (Nat.not_lt_zero _)
  | succ n ih =>
      intro s hcard
      simp only [reachIter]
      by_cases h : reachStep edges s = s
      · rw [if_pos h]
        exact h
      · rw [if_neg h]
        apply ih
        have hsub : s ⊆ reachStep edges s := subset_reachStep edges s
        have hproper : s ⊂ reachStep edges s :=
          hsub.ssubset_of_ne (fun he => h he.symm)
        obtain ⟨x, hxstep, hxs⟩ := Finset.exists_of_ssubset hproper
        have hxT : x ∈ (edges.map (fun e => e.targetId)).toFinset := by
          rcases Finset.mem_union.mp (reachStep_subset_union edges s hxstep) with h1 | h2
          · exact absurd h1 hxs
          · exact h2
        have hsub2 : (edges.map (fun e => e.targetId)).toFinset \ reachStep edges s
            ⊆ (edges.map (fun e => e.targetId)).toFinset \ s := by
          intro y hy
          rcases Finset.mem_sdiff.mp hy with ⟨hyT, hyn⟩
          exact Finset.mem_sdiff.mpr ⟨hyT, fun hys => hyn (hsub hys)⟩
        have hlt : ((edges.map (fun e => e.targetId)).toFinset \ reachStep edges s).card
            < ((edges.map (fun e => e.targetId)).toFinset \ s).card := by
          apply Finset.card_lt_card
          rw [Finset.ssubset_iff_of_subset hsub2]
          exact ⟨x, Finset.mem_sdiff.mpr ⟨hxT, hxs⟩,
            fun hc => (Finset.mem_sdiff.mp hc).2 hxstep⟩
        omega

/-- The reachable set is closed under the saturation step. -/
theorem reachStep_reachSet (edges : List FlowEdge) (u : String) :
    reachStep edges (reachSet edges u) = reachSet edges u := by
  apply reachIter_fix
  have hle : ((edges.map (fun e => e.targetId)).toFinset \ ({u} : Finset String)).card
      ≤ (edges.map (fun e => e.targetId)).toFinset.card :=
    Finset.card_le_card (Finset.sdiff_subset)
  omega

/-- Every id reaches itself. -/
theorem mem_reachSet_self (edges : List FlowEdge) (u : String) :
    u ∈ reachSet edges u :=
  subset_reachIter edges _ {u} (Finset.mem_singleton_self u)

/-- The reachable set is closed under following an edge. -/
theorem targetId_mem_reachSet {edges : List FlowEdge} {e : FlowEdge} {u : String}
    (he : e ∈ edges) (hs : e.sourceId ∈ reachSet edges u) :
    e.targetId ∈ reachSet edges u := by
  rw [← reachStep_reachSet edges u]
  refine Finset.mem_union_right _ ?_
  simp only [List.mem_toFinset, List.mem_map, List.mem_filter, decide_eq_true_eq]
  exact ⟨e, ⟨he, hs⟩, rfl⟩

/-- The iterates stay inside any step-closed superset. -/
theorem reachIter_subset_of_closed (edges : List FlowEdge) (C : Finset String)
    (hC : reachStep edges C ⊆ C) :
    ∀ (n : Nat) (s : Finset String), s ⊆ C → reachIter edges n s ⊆ C := by
  intro n
  induction n with
  | zero => intro s hs; exact hs
  | succ n ih =>
      intro s hs
      simp only [reachIter]
      by_cases h : reachStep edges s = s
      · rw [if_pos h]
        exact hs
      · rw [if_neg h]
        exact ih _ (subset_trans (reachStep_mono hs) hC)

/-- Reachability is transitive. -/
theorem reachSet_trans {edges : List FlowEdge} {u v : String}
    (h : v ∈ reachSet edges u) : reachSet edges v ⊆ reachSet edges u := by
  apply reachIter_subset_of_closed edges (reachSet edges u)
    (le_of_eq (reachStep_reachSet edges u))
  simpa using h

/-- An edge that lies on no cycle strictly increases the modelled rank. -/
theorem nodeRank_lt_of_edge (g : FlowGraph) (e : FlowEdge)
    (he : e ∈ g.edges)
    (hA : e.sourceId ∈ g.nodes.map (fun n => n.id))
    (hnc : reachableB g.edges e.targetId e.sourceId = false) :
    nodeRank g e.sourceId < nodeRank g e.targetId := by
  have hncA : e.sourceId ∉ reachSet g.edges e.targetId := by
    simpa [reachableB] using hnc
  unfold nodeRank
  apply Finset.card_lt_card
  have hsub : ((g.nodes.map (fun n => n.id)).toFinset.filter
        (fun u => reachableB g.edges u e.sourceId = true ∧
          reachableB g.edges e.sourceId u = false))
      ⊆ ((g.nodes.map (fun n => n.id)).toFinset.filter
        (fun u => reachableB g.edges u e.targetId = true ∧
          reachableB g.edges e.targetId u = false)) := by
    intro u hu
    rw [Finset.mem_filter] at hu ⊢
    obtain ⟨hids, hreach, hnrev⟩ := hu
    have hreach' : e.sourceId ∈ reachSet g.edges u := by
      simpa [reachableB] using hreach
    refine ⟨hids, ?_, ?_⟩
    · simpa [reachableB] using targetId_mem_reachSet he hreach'
    · simp only [reachableB, decide_eq_false_iff_not]
      intro hu2
      exact hncA (reachSet_trans hu2 hreach')
  rw [Finset.ssubset_iff_of_subset hsub]
  refine ⟨e.sourceId, ?_, ?_⟩
  · rw [Finset.mem_filter]
    refine ⟨by simpa using hA, ?_, hnc⟩
    simpa [reachableB] using
      targetId_mem_reachSet he (mem_reachSet_self g.edges e.sourceId)
  · intro hmem
    rw [Finset.mem_filter] at hmem
    have : reachableB g.edges e.sourceId e.sourceId = false := hmem.2.2
    simp only [reachableB, decide_eq_false_iff_not] at this
    exact this (mem_reachSet_self g.edges e.sourceId)

/-- Rounding an integer-valued rational is the identity. -/
theorem jsRound_intCast (m : Int) : jsRound ((m : ℚ)) = m := by
  unfold jsRound
  rw [Int.floor_eq_iff]
  constructor
  · linarith
  · linarith

/-- Finding a mapped layout node by id yields the modelled `x`. -/
theorem find_map_x (g : FlowGraph) (dir : Dir) (v : String) :
    ∀ l : List FlowNode, v ∈ l.map (fun n => n.id) →
      ((l.map (fun n =>
        ({ id := n.id, name := n.name,
           x := jsRound ((dagreNodePos g dir n.id).1 - 324 / 2),
           y := jsRound ((dagreNodePos g dir n.id).2 - 252 / 2),
           width := 324, height := 252 } : LayoutNode))).find?
          (fun n => n.id == v)).map (fun n => n.x)
        = some (jsRound ((dagreNodePos g dir v).1 - 324 / 2)) := by
  intro l
  induction l with
  | nil => intro h; simp at h
  | cons n l ih =>
      intro hv
      rw [List.map_cons]
      by_cases hn : n.id = v
      · rw [List.find?_cons_of_pos _ (by simpa using hn)]
        simp [hn]
      · rw [List.find?_cons_of_neg _ (by simpa using hn)]
        apply ih
        rcases List.mem_map.mp hv with ⟨m, hm, hmv⟩
        rcases List.mem_cons.mp hm with heq | hml
        · exact absurd (heq ▸ hmv) hn
        · exact List.mem_map.mpr ⟨m, hml, hmv⟩

/-- Finding a mapped layout node by id yields the modelled `y`. -/
theorem find_map_y (g : FlowGraph) (dir : Dir) (v : String) :
    ∀ l : List FlowNode, v ∈ l.map (fun n => n.id) →
      ((l.map (fun n =>
        ({ id := n.id, name := n.name,
           x := jsRound ((dagreNodePos g dir n.id).1 - 324 / 2),
           y := jsRound ((dagreNodePos g dir n.id).2 - 252 / 2),
           width := 324, height := 252 } : LayoutNode))).find?
          (fun n => n.id == v)).map (fun n => n.y)
        = some (jsRound ((dagreNodePos g dir v).2 - 252 / 2)) := by
  intro l
  induction l with
  | nil => intro h; simp at h
  | cons n l ih =>
      intro hv
      rw [List.map_cons]
      by_cases hn : n.id = v
      · rw [List.find?_cons_of_pos _ (by simpa using hn)]
        simp [hn]
      · rw [List.find?_cons_of_neg _ (by simpa using hn)]
        apply ih
        rcases List.mem_map.mp hv with ⟨m, hm, hmv⟩
        rcases List.mem_cons.mp hm with heq | hml
        · exact absurd (heq ▸ hmv) hn
        · exact List.mem_map.mpr ⟨m, hml, hmv⟩

/-- The `x` assigned to a present id is the rounded modelled coordinate. -/
theorem layoutXOf_eq (g : FlowGraph) (dir : Dir) (v : String)
    (hv : v ∈ g.nodes.map (fun n => n.id)) :
    layoutXOf g dir v = some (jsRound ((dagreNodePos g dir v).1 - 324 / 2)) := by
  unfold layoutXOf computeLayout
  simp only
  exact find_map_x g dir v g.nodes hv

/-- The `y` assigned to a present id is the rounded modelled coordinate. -/
theorem layoutYOf_eq (g : FlowGraph) (dir : Dir) (v : String)
    (hv : v ∈ g.nodes.map (fun n => n.id)) :
    layoutYOf g dir v = some (jsRound ((dagreNodePos g dir v).2 - 252 / 2)) := by
  unfold layoutYOf computeLayout
  simp only
  exact find_map_y g dir v g.nodes hv

/-- In `LR` mode the rounded `x` is an affine function of rank. -/
theorem layoutX_LR (g : FlowGraph) (v : String)
    (hv : v ∈ g.nodes.map (fun n => n.id)) :
    layoutXOf g Dir.LR v = some (20 + 444 * (nodeRank g v : Int)) := by
  rw [layoutXOf_eq g Dir.LR v hv]
  have hq : (dagreNodePos g Dir.LR v).1 - 324 / 2
      = ((20 + 444 * (nodeRank g v : Int) : Int) : ℚ) := by
    simp only [dagreNodePos]
    push_cast
    ring
  rw [hq, jsRound_intCast]

/-- In `TB` mode the rounded `y` is an affine function of rank. -/
theorem layoutY_TB (g : FlowGraph) (v : String)
    (hv : v ∈ g.nodes.map (fun n => n.id)) :
    layoutYOf g Dir.TB v = some (20 + 372 * (nodeRank g v : Int)) := by
  rw [layoutYOf_eq g Dir.TB v hv]
  have hq : (dagreNodePos g Dir.TB v).2 - 252 / 2
      = ((20 + 372 * (nodeRank g v : Int) : Int) : ℚ) := by
    simp only [dagreNodePos]
    push_cast
    ring
  rw [hq, jsRound_intCast]

/-- C9: for an edge `A → B` with no cycle through `A` and `B` (its target
cannot reach back to its source), laying out left-to-right places `A`
strictly left of `B`, and laying out top-to-bottom places `A` strictly above
`B`. -/
theorem c9_direction_monotonicity (g : FlowGraph) (e : FlowEdge)
    (he : e ∈ g.edges)
    (hA : e.sourceId ∈ g.nodes.map (fun n => n.id))
    (hB : e.targetId ∈ g.nodes.map (fun n => n.id))
    (hnc : reachableB g.edges e.targetId e.sourceId = false) :
    optLt (layoutXOf g Dir.LR e.sourceId) (layoutXOf g Dir.LR e.targetId) ∧
    optLt (layoutYOf g Dir.TB e.sourceId) (layoutYOf g Dir.TB e.targetId) := by
  have hrank := nodeRank_lt_of_edge g e he hA hnc
  constructor
  · rw [layoutX_LR g e.sourceId hA, layoutX_LR g e.targetId hB]
    simp only [optLt]
    omega
  · rw [layoutY_TB g e.sourceId hA, layoutY_TB g e.targetId hB]
    simp only [optLt]
    omega

/-- C9, witness: on the two-node graph `a → b`, `a` is placed strictly left
of `b` in `LR` mode and strictly above `b` in `TB` mode. -/
theorem c9_direction_monotonicity_witness :
    optLt (layoutXOf graphAB Dir.LR "a") (layoutXOf graphAB Dir.LR "b") ∧
    optLt (layoutYOf graphAB Dir.TB "a") (layoutYOf graphAB Dir.TB "b") :=
  c9_direction_monotonicity graphAB edgeAB (by decide) (by decide) (by decide)
    (by decide)
